import Mathlib

/-!
# VideoPlayer: audio hand-off buffer, callbacks, teardown and resize

A shallow embedding of `src/VideoPlayer/VideoPlayer.cpp`.

* `m_samples` (a `std::queue<float>`) is a list whose head is the front of the
  queue. Samples are only moved, never computed with, so the sample type is a
  parameter `α`.
* Pointers that the code dereferences are `Option` values; dereferencing an
  absent one, popping an empty queue and indexing outside an array are errors
  of type `Err`.
* `PLM_AUDIO_SAMPLES_PER_FRAME` comes from the decoder header, which is not
  part of the translated source; it is a parameter of the decoder audio
  callback (pl_mpeg defines it as 1152).
* `float` values other than samples (sizes, volume) are binary32 values
  (`Float32`): a finite value is the rational it denotes, and every
  arithmetic operation returns the exact result rounded to the nearest
  binary32 value, ties to even, with overflow to infinity.
-/

namespace videoplayer

/-! ## Errors and the sample queue -/

/-- Run-time faults that the C++ code leaves undefined. -/
inductive Err where
  | nullDeref
  | popEmpty
  | outOfBounds
  deriving DecidableEq, Repr

/-- Result code of the device callbacks; the code only ever returns `FMOD_OK`. -/
inductive FMOD_RESULT where
  | FMOD_OK
  deriving DecidableEq, Repr

/-- The method `std::queue::push`: append at the back. -/
def push {α : Type} (q : List α) (x : α) : List α := q ++ [x]

/-- The method `std::queue::front`: the oldest element; an error on an empty queue. -/
def front {α : Type} : List α → Except Err α
  | [] => .error .popEmpty
  | x :: _ => .ok x

/-- The method `std::queue::pop`: drop the oldest element; an error on an empty queue. -/
def pop {α : Type} : List α → Except Err (List α)
  | [] => .error .popEmpty
  | _ :: q => .ok q

/-- Array read `a[i]`; an error outside the array. -/
def readAt {α : Type} (a : List α) (i : Nat) : Except Err α :=
  match a[i]? with
  | some x => .ok x
  | none => .error .outOfBounds

/-- Array write `a[i] = x`; an error outside the array. -/
def writeAt {α : Type} (a : List α) (i : Nat) (x : α) : Except Err (List α) :=
  if i < a.length then .ok (a.set i x) else .error .outOfBounds

/-- Dereference of a pointer; an error when it is null. -/
def deref {β : Type} : Option β → Except Err β
  | none => .error .nullDeref
  | some b => .ok b

/-! ## Single-precision arithmetic -/

/-- The value `floor (log2 n)` by repeated halving, with `fuel` halvings allowed. -/
def ilog2Aux : Nat → Nat → Nat
  | 0, _ => 0
  | fuel + 1, n => if n < 2 then 0 else ilog2Aux fuel (n / 2) + 1

/-- The value `floor (log2 n)` for positive `n`. -/
def ilog2 (n : Nat) : Nat := ilog2Aux n n

/-- The binary exponent `E` of the positive fraction `n / d`, the one with
`2 ^ E ≤ n / d < 2 ^ (E + 1)`: the difference of the bit lengths, lowered by
one when the fraction is below that power of two. -/
def ratioExponent (n d : Nat) : Int :=
  let e0 : Int := (ilog2 n : Int) - (ilog2 d : Int)
  if n * 2 ^ (-e0).toNat < d * 2 ^ e0.toNat then e0 - 1 else e0

/-- The integer nearest to `N / D`, a tie going to the even neighbour. -/
def roundHalfEven (N D : Nat) : Nat :=
  if 2 * (N % D) < D then N / D
  else if D < 2 * (N % D) then N / D + 1
  else N / D + (N / D) % 2

/-- A value of the C++ type `float` (IEEE 754 binary32): a finite value, given
as the rational number it denotes, an infinity, or a NaN. Negative zero is
identified with zero. The rationals a `float` can hold are those that
`Float32.round` leaves unchanged; the operations below return only such
values. -/
inductive Float32 where
  | fin (q : ℚ)
  | inf (negative : Bool)
  | nan
  deriving DecidableEq, Repr

/-- Rounding of an exact value to binary32, to nearest with ties to even. With
`E` the binary exponent of `|x|`, not below the least normal exponent `-126`,
the result is the multiple of `2 ^ (E - 23)` nearest to `x` (a 24-bit
significand); a result of magnitude `2 ^ 128` or more is an infinity. -/
def Float32.round (x : ℚ) : Float32 :=
  if x.num = 0 then .fin 0
  else
    let u : Int := max (ratioExponent x.num.natAbs x.den) (-126) - 23
    let M : Nat := roundHalfEven (x.num.natAbs * 2 ^ (-u).toNat) (x.den * 2 ^ u.toNat)
    if 2 ^ 128 ≤ M * 2 ^ u.toNat then .inf (decide (x.num < 0))
    else .fin (mkRat (if x.num < 0 then -((M * 2 ^ u.toNat : Nat) : Int)
                      else ((M * 2 ^ u.toNat : Nat) : Int)) (2 ^ (-u).toNat))

/-- The `float` product `a * b`: the exact product, rounded. -/
def Float32.mul : Float32 → Float32 → Float32
  | .nan, _ => .nan
  | _, .nan => .nan
  | .inf s, .inf t => .inf (s != t)
  | .inf s, .fin q => if q = 0 then .nan else .inf (s != decide (q < 0))
  | .fin p, .inf t => if p = 0 then .nan else .inf (decide (p < 0) != t)
  | .fin p, .fin q => Float32.round (p * q)

/-- The `float` quotient `a / b`: the exact quotient, rounded. -/
def Float32.div : Float32 → Float32 → Float32
  | .nan, _ => .nan
  | _, .nan => .nan
  | .inf _, .inf _ => .nan
  | .inf s, .fin q => .inf (s != decide (q < 0))
  | .fin _, .inf _ => .fin 0
  | .fin p, .fin q =>
    if q = 0 then (if p = 0 then .nan else .inf (decide (p < 0)))
    else Float32.round (p / q)

/-- The `float` comparison `a > b`; false when either side is a NaN. -/
def Float32.gt : Float32 → Float32 → Bool
  | .nan, _ => false
  | _, .nan => false
  | .inf s, .inf t => !s && t
  | .inf s, .fin _ => !s
  | .fin _, .inf t => t
  | .fin p, .fin q => decide (q < p)

/-! ## Host-framework and device objects -/

/-- Host framework size type: two `float` fields. -/
structure CCSize where
  width : Float32
  height : Float32
  deriving DecidableEq

/-- Modelled from the spec: `CCSize::aspect()` is declared in the host
framework headers, which are not part of the translated source; the aspect
ratio of a size is the `float` quotient of its width by its height. -/
def CCSize.aspect (s : CCSize) : Float32 := s.width.div s.height

/-- The device sound object, as far as the player touches it. -/
structure Sound where
  released : Bool
  deriving DecidableEq

/-- The device channel object, as far as the player touches it. -/
structure Channel where
  playing : Bool
  paused : Bool
  volume : Float32
  hasUserData : Bool
  hasCallback : Bool
  deriving DecidableEq

/-- The device system handle `engine->m_system`. Its two calls are external;
each field is what the call stores through its out-parameter. -/
structure FMODSystem where
  createStream : Option Sound
  playSound : Option Channel
  deriving DecidableEq

/-- The audio engine object returned by `FMODAudioEngine::sharedEngine()`. -/
structure FMODAudioEngine where
  m_system : Option FMODSystem
  deriving DecidableEq

/-- Callback kinds the device passes to a channel callback. -/
inductive FMOD_CHANNELCONTROL_CALLBACK_TYPE where
  | FMOD_CHANNELCONTROL_CALLBACK_END
  | FMOD_CHANNELCONTROL_CALLBACK_VIRTUALVOICE
  | FMOD_CHANNELCONTROL_CALLBACK_SYNCPOINT
  | FMOD_CHANNELCONTROL_CALLBACK_OCCLUSION
  deriving DecidableEq, Repr

/-- The decoded audio block `plm_samples_t`: a sample-pair count (an
`unsigned int`) and the array of interleaved samples. -/
structure plm_samples_t (α : Type) where
  count : Nat
  interleaved : List α
  deriving DecidableEq

/-- The player object: the fields of `VideoPlayer` that the translated
functions read or write. -/
structure VideoPlayer (α : Type) where
  m_samples : List α
  m_stopped : Bool
  m_loop : Bool
  m_paused : Bool
  m_volume : Float32
  m_sound : Option Sound
  m_channel : Option Channel
  m_dimensions : CCSize
  m_obContentSize : CCSize
  deriving DecidableEq

/-! ## Decoder audio callback -/

/-- The push loop `for (i = 0; i < n; i++) m_samples.push(interleaved[i])`,
entered with `k = n - i` iterations left. -/
def pushLoop {α : Type} (interleaved : List α) : Nat → Nat → List α → Except Err (List α)
  | 0, _, q => .ok q
  | k + 1, i, q =>
    match readAt interleaved i with
    | .error e => .error e
    | .ok x => pushLoop interleaved k (i + 1) (push q x)

/-- The trim loop `while (m_samples.size() > T) m_samples.pop();`. The queue
shrinks by one element per iteration, so the recursion is on the queue. -/
def trimLoop {α : Type} (T : Nat) : List α → Except Err (List α)
  | [] => if ([] : List α).length > T then pop ([] : List α) else .ok []
  | x :: q => if (x :: q).length > T then trimLoop T q else .ok (x :: q)

/-- The decoder callback `Impl::audioCallback(plm_t*, plm_samples_t*, void*)`:
push `samples->count * 2` samples (32-bit unsigned product), then trim to
`PLM_AUDIO_SAMPLES_PER_FRAME * 16`. -/
def VideoPlayer.Impl.audioCallback {α : Type} (PLM_AUDIO_SAMPLES_PER_FRAME : Nat)
    (samples : plm_samples_t α) (self : VideoPlayer α) : Except Err (VideoPlayer α) :=
  match pushLoop samples.interleaved (samples.count * 2 % 2 ^ 32) 0 self.m_samples with
  | .error e => .error e
  | .ok q =>
    match trimLoop (PLM_AUDIO_SAMPLES_PER_FRAME * 16) q with
    | .error e => .error e
    | .ok q' => .ok { self with m_samples := q' }

/-! ## Pull callback -/

/-- The loop of `PCMRead`, entered with `k = n - i` iterations left:
`for (; i < n && m_samples.size() >= 2; i++)` pops a pair into
`buf[2 * i]`, `buf[2 * i + 1]`. -/
def PCMReadLoop {α : Type} : Nat → Nat → List α → List α → Except Err (List α × List α)
  | 0, _, buf, q => .ok (buf, q)
  | k + 1, i, buf, q =>
    if q.length ≥ 2 then
      match front q with
      | .error e => .error e
      | .ok l =>
      match writeAt buf (2 * i) l with
      | .error e => .error e
      | .ok buf1 =>
      match pop q with
      | .error e => .error e
      | .ok q1 =>
      match front q1 with
      | .error e => .error e
      | .ok r =>
      match writeAt buf1 (2 * i + 1) r with
      | .error e => .error e
      | .ok buf2 =>
      match pop q1 with
      | .error e => .error e
      | .ok q2 => PCMReadLoop k (i + 1) buf2 q2
    else .ok (buf, q)

/-- The pull callback `Impl::PCMRead(sound, data, length)`. `self` is the user
data of the sound (possibly null), `data` the output block of floats, `length`
its size in bytes; `sizeof(float)` is 4. Returns the result code, the player
and the output block. -/
def VideoPlayer.Impl.PCMRead {α : Type} (self : Option (VideoPlayer α)) (data : List α)
    (length : Nat) : Except Err (FMOD_RESULT × Option (VideoPlayer α) × List α) :=
  match self with
  | none => .ok (.FMOD_OK, none, data)
  | some self =>
    match PCMReadLoop ((length / 4) / 2) 0 data self.m_samples with
    | .error e => .error e
    | .ok (buf, q) => .ok (.FMOD_OK, some { self with m_samples := q }, buf)

/-! ## Stream creation, playback start and the channel callback -/

/-- The method `VideoPlayer::playSound`. The channel is asked whether it is
playing only when it exists; engine and system are checked before use; the
system call stores the channel it starts into `m_channel`. -/
def VideoPlayer.playSound {α : Type} (engine : Option FMODAudioEngine)
    (self : VideoPlayer α) : VideoPlayer α :=
  let playing : Bool :=
    match self.m_channel with
    | some ch => ch.playing
    | none => false
  if !playing then
    match engine with
    | none => self
    | some eng =>
      match eng.m_system with
      | none => self
      | some sys => { self with m_channel := sys.playSound }
  else self

/-- The method `VideoPlayer::initAudio`, with `engine` the value of
`FMODAudioEngine::sharedEngine()`. The sound description it fills in is passed
to the external `createStream` and is not modelled. In source order: reset
`m_samples`; `engine->m_system->createStream(.., &m_sound)`; `playSound()`;
`m_channel->setVolume`, `setUserData`, and `setCallback` when looping. -/
def VideoPlayer.initAudio {α : Type} (engine : Option FMODAudioEngine)
    (self : VideoPlayer α) : Except Err (VideoPlayer α) :=
  let self0 : VideoPlayer α := { self with m_samples := [] }
  match deref engine with
  | .error e => .error e
  | .ok eng =>
  match deref eng.m_system with
  | .error e => .error e
  | .ok sys =>
  let self1 : VideoPlayer α := { self0 with m_sound := sys.createStream }
  let self2 := VideoPlayer.playSound engine self1
  match deref self2.m_channel with
  | .error e => .error e
  | .ok ch =>
  let ch1 : Channel := { ch with volume := self2.m_volume }
  let ch2 : Channel := { ch1 with hasUserData := true }
  let ch3 : Channel := if self2.m_loop then { ch2 with hasCallback := true } else ch2
  .ok { self2 with m_channel := some ch3 }

/-- The channel callback `Impl::audioCallback(chanControl, controlType,
callbackType, ..)`; `self` is the user data of the channel. -/
def VideoPlayer.Impl.audioCallbackFMOD {α : Type} (engine : Option FMODAudioEngine)
    (self : VideoPlayer α) (callbackType : FMOD_CHANNELCONTROL_CALLBACK_TYPE) :
    Except Err (FMOD_RESULT × VideoPlayer α) :=
  if callbackType ≠ .FMOD_CHANNELCONTROL_CALLBACK_END then .ok (.FMOD_OK, self)
  else if self.m_stopped then .ok (.FMOD_OK, self)
  else
    match VideoPlayer.initAudio engine self with
    | .error e => .error e
    | .ok self1 => .ok (.FMOD_OK, self1)

/-! ## Teardown -/

/-- The two device calls made by teardown. -/
inductive TeardownStep where
  | channelStop
  | soundRelease
  deriving DecidableEq, Repr

/-- The destructor `VideoPlayer::~VideoPlayer`, statement by statement:
`m_channel->stop(); m_sound->release(); m_stopped = true;`. Besides the final
player it returns the device calls in the order made, each with the value
`m_stopped` has while the call runs, which is what a channel callback fired
during that call reads. -/
def VideoPlayer.destructor {α : Type} (self : VideoPlayer α) :
    Except Err (VideoPlayer α × List (TeardownStep × Bool)) :=
  match deref self.m_channel with
  | .error e => .error e
  | .ok ch =>
  let t1 : List (TeardownStep × Bool) := [(.channelStop, self.m_stopped)]
  let self1 : VideoPlayer α := { self with m_channel := some { ch with playing := false } }
  match deref self1.m_sound with
  | .error e => .error e
  | .ok snd =>
  let t2 := t1 ++ [(TeardownStep.soundRelease, self1.m_stopped)]
  let self2 : VideoPlayer α := { self1 with m_sound := some { snd with released := true } }
  .ok ({ self2 with m_stopped := true }, t2)

/-! ## Aspect-preserving resize -/

/-- Modelled from the spec: `CCNode::setContentSize` belongs to the host
framework, not to the translated source; it stores the content size, which
`draw` reads back from `m_obContentSize`. -/
def VideoPlayer.setContentSize {α : Type} (self : VideoPlayer α) (s : CCSize) :
    VideoPlayer α :=
  { self with m_obContentSize := s }

/-- The method `VideoPlayer::setHeight`: content size
`{height * m_dimensions.aspect(), height}`. -/
def VideoPlayer.setHeight {α : Type} (self : VideoPlayer α) (height : Float32) :
    VideoPlayer α :=
  self.setContentSize ⟨height.mul self.m_dimensions.aspect, height⟩

/-- The method `VideoPlayer::setWidth`: content size
`{width, width / m_dimensions.aspect()}`. -/
def VideoPlayer.setWidth {α : Type} (self : VideoPlayer α) (width : Float32) :
    VideoPlayer α :=
  self.setContentSize ⟨width, width.div self.m_dimensions.aspect⟩

/-- The method `VideoPlayer::fillSize`. -/
def VideoPlayer.fillSize {α : Type} (self : VideoPlayer α) (size : CCSize) : VideoPlayer α :=
  if self.m_dimensions.aspect.gt size.aspect then self.setWidth size.width
  else self.setHeight size.height

/-! ## Sequences of buffer operations -/

/-- One operation on the sample buffer: a decoder audio callback, a pull
callback, or a reset by `initAudio`. -/
inductive Event (α : Type) where
  | decode (samples : plm_samples_t α)
  | pull (data : List α) (length : Nat)
  | reset (engine : Option FMODAudioEngine)

/-- Run one operation on the player. -/
def step {α : Type} (PLM_AUDIO_SAMPLES_PER_FRAME : Nat) (self : VideoPlayer α) :
    Event α → Except Err (VideoPlayer α)
  | .decode samples => VideoPlayer.Impl.audioCallback PLM_AUDIO_SAMPLES_PER_FRAME samples self
  | .pull data length =>
    match VideoPlayer.Impl.PCMRead (some self) data length with
    | .error e => .error e
    | .ok (_, some self1, _) => .ok self1
    | .ok (_, none, _) => .ok self
  | .reset engine => VideoPlayer.initAudio engine self

/-- Run a sequence of operations, oldest first, stopping at the first fault. -/
def run {α : Type} (PLM_AUDIO_SAMPLES_PER_FRAME : Nat) :
    List (Event α) → VideoPlayer α → Except Err (VideoPlayer α)
  | [], self => .ok self
  | ev :: evs, self =>
    match step PLM_AUDIO_SAMPLES_PER_FRAME self ev with
    | .error e => .error e
    | .ok self1 => run PLM_AUDIO_SAMPLES_PER_FRAME evs self1

/-- The number `k` of stereo pairs a pull of `length` bytes takes from a buffer of
`size` samples: the requested pairs `(length / 4) / 2`, or all whole pairs of
the buffer if those are fewer. -/
def pairsPopped (length size : Nat) : Nat := min ((length / 4) / 2) (size / 2)

/-- A player over integer-valued samples with a sound, a playing channel and a
given buffer content; used to evaluate the code on concrete inputs. -/
def playerWith (q : List ℤ) (stopped : Bool) : VideoPlayer ℤ :=
  { m_samples := q, m_stopped := stopped, m_loop := true, m_paused := false,
    m_volume := .fin 1,
    m_sound := some ⟨false⟩, m_channel := some ⟨true, false, .fin 1, true, true⟩,
    m_dimensions := ⟨.fin 4, .fin 3⟩, m_obContentSize := ⟨.fin 16, .fin 12⟩ }

/-- An audio engine whose system creates a sound and starts a playing channel;
used to evaluate the code on concrete inputs. -/
def deviceEngine : Option FMODAudioEngine :=
  some ⟨some ⟨some ⟨false⟩, some ⟨true, false, .fin 1, false, false⟩⟩⟩

/-! ## Statements of the properties the code does not have -/

/-- Silence on underrun, as a property of one pull: the call returns, and every
requested position from `2 * k` on, `k` the number of pairs popped, holds zero
afterwards. -/
def SilenceOnUnderrun {α : Type} [Zero α] (self : VideoPlayer α) (data : List α)
    (length : Nat) : Prop :=
  ∃ self1 data1, VideoPlayer.Impl.PCMRead (some self) data length
      = .ok (.FMOD_OK, some self1, data1) ∧
    ∀ j, 2 * pairsPopped length self.m_samples.length ≤ j →
      j < 2 * ((length / 4) / 2) → data1[j]? = some 0

/-- Teardown ordering, as a property of one teardown: every device call it
makes runs with `m_stopped` already true. -/
def FlagSetBeforeDeviceCalls {α : Type} (self : VideoPlayer α) : Prop :=
  ∀ self1 trace, self.destructor = .ok (self1, trace) →
    ∀ c ∈ trace, c.2 = true


/-! ## Lemmas about the loops -/

theorem trimLoop_eq_drop {α : Type} (T : Nat) (q : List α) :
    trimLoop T q = .ok (q.drop (q.length - T)) := by
  induction q with
  | nil => simp [trimLoop]
  | cons x q ih =>
    unfold trimLoop
    by_cases h : (x :: q).length > T
    · rw [if_pos h, ih]
      simp only [List.length_cons] at h ⊢
      have : q.length + 1 - T = (q.length - T) + 1 := by omega
      rw [this, List.drop_succ_cons]
    · rw [if_neg h]
      have : (x :: q).length - T = 0 := by omega
      rw [this, List.drop_zero]

theorem trimLoop_unfold {α : Type} (T : Nat) (q : List α) :
    trimLoop T q = if q.length > T then (pop q).bind (trimLoop T) else .ok q := by
  cases q with
  | nil => simp [trimLoop, pop]
  | cons x q => simp [trimLoop, pop, Except.bind]

theorem pushLoop_ok {α : Type} (a : List α) :
    ∀ (k i : Nat) (q : List α), i + k ≤ a.length →
      pushLoop a k i q = .ok (q ++ (a.drop i).take k) := by
  intro k
  induction k with
  | zero => intro i q _; simp [pushLoop]
  | succ k ih =>
    intro i q h
    have hi : i < a.length := by omega
    unfold pushLoop
    simp only [readAt, List.getElem?_eq_getElem hi]
    rw [ih (i + 1) (push q a[i]) (by omega)]
    rw [List.drop_eq_getElem_cons hi, List.take_succ_cons]
    simp only [push, List.append_assoc, List.singleton_append]

theorem pushLoop_cases {α : Type} (a : List α) :
    ∀ (k i : Nat) (q : List α),
      pushLoop a k i q = .error .outOfBounds ∨
        ∃ q1, pushLoop a k i q = .ok q1 ∧ q1.length = q.length + k := by
  intro k
  induction k with
  | zero => intro i q; right; exact ⟨q, rfl, rfl⟩
  | succ k ih =>
    intro i q
    unfold pushLoop
    by_cases hi : i < a.length
    · simp only [readAt, List.getElem?_eq_getElem hi]
      rcases ih (i + 1) (push q a[i]) with h | ⟨q1, h, hl⟩
      · left; exact h
      · right; refine ⟨q1, h, ?_⟩
        simp [push] at hl; omega
    · left
      simp [readAt, List.getElem?_eq_none (Nat.le_of_not_lt hi)]


theorem audioCallback_eq {α : Type} (P : Nat) (samples : plm_samples_t α)
    (self : VideoPlayer α) (q : List α)
    (h : pushLoop samples.interleaved (samples.count * 2 % 2 ^ 32) 0 self.m_samples = .ok q) :
    VideoPlayer.Impl.audioCallback P samples self
      = .ok { self with m_samples := q.drop (q.length - P * 16) } := by
  unfold VideoPlayer.Impl.audioCallback
  rw [h]
  simp only [trimLoop_eq_drop]

theorem writeAt_append {α : Type} (pre : List α) (x a : α) (t : List α) :
    writeAt (pre ++ x :: t) pre.length a = .ok (pre ++ a :: t) := by
  unfold writeAt
  rw [if_pos (by simp)]
  simp

theorem PCMReadLoop_spec {α : Type} :
    ∀ (k i : Nat) (pre rest q : List α), pre.length = 2 * i → 2 * k ≤ rest.length →
      PCMReadLoop k i (pre ++ rest) q
        = .ok (pre ++ q.take (2 * min k (q.length / 2))
                ++ rest.drop (2 * min k (q.length / 2)),
               q.drop (2 * min k (q.length / 2))) := by
  intro k
  induction k with
  | zero => intro i pre rest q _ _; simp [PCMReadLoop]
  | succ k ih =>
    intro i pre rest q hpre hrest
    unfold PCMReadLoop
    by_cases hq : q.length ≥ 2
    · rw [if_pos hq]
      match q, hq with
      | a :: b :: q2, _ =>
        match rest, hrest with
        | x :: y :: rest2, hrest =>
          have h1 : writeAt (pre ++ x :: y :: rest2) (2 * i) a = .ok (pre ++ a :: y :: rest2) := by
            rw [← hpre]; exact writeAt_append pre x a (y :: rest2)
          have h2 : writeAt (pre ++ a :: y :: rest2) (2 * i + 1) b
              = .ok ((pre ++ [a, b]) ++ rest2) := by
            have := writeAt_append (pre ++ [a]) y b rest2
            simp only [List.length_append, List.length_singleton, hpre, List.append_assoc,
              List.singleton_append] at this
            simpa using this
          simp only [front, pop, h1, h2]
          rw [ih (i + 1) (pre ++ [a, b]) rest2 q2 (by simp [hpre]; omega)
            (by simp at hrest; omega)]
          have hm : min (k + 1) ((a :: b :: q2).length / 2) = min k (q2.length / 2) + 1 := by
            simp only [List.length_cons]
            omega
          rw [hm]
          simp [Nat.mul_add]
    · rw [if_neg hq]
      have hm : min (k + 1) (q.length / 2) = 0 := by omega
      simp [hm]


theorem PCMReadLoop_cases {α : Type} :
    ∀ (k i : Nat) (buf q : List α),
      PCMReadLoop k i buf q = .error .outOfBounds ∨
        ∃ buf1 j, PCMReadLoop k i buf q = .ok (buf1, q.drop (2 * j)) ∧ 2 * j ≤ q.length := by
  intro k
  induction k with
  | zero => intro i buf q; right; exact ⟨buf, 0, by simp [PCMReadLoop], by omega⟩
  | succ k ih =>
    intro i buf q
    unfold PCMReadLoop
    by_cases hq : q.length ≥ 2
    · rw [if_pos hq]
      match q, hq with
      | a :: b :: q2, _ =>
        simp only [front, pop, writeAt]
        by_cases h1 : 2 * i < buf.length
        · rw [if_pos h1]
          by_cases h2 : 2 * i + 1 < (buf.set (2 * i) a).length
          · simp only [if_pos h2]
            rcases ih (i + 1) ((buf.set (2 * i) a).set (2 * i + 1) b) q2 with h | ⟨buf1, j, h, hj⟩
            · left; exact h
            · right
              refine ⟨buf1, j + 1, ?_, by simp only [List.length_cons]; omega⟩
              rw [h]
              simp [Nat.mul_add]
          · left; simp only [if_neg h2]
        · left; rw [if_neg h1]
    · rw [if_neg hq]
      right; exact ⟨buf, 0, by simp, by omega⟩

theorem playSound_frame {α : Type} (engine : Option FMODAudioEngine) (self : VideoPlayer α) :
    ∃ c, VideoPlayer.playSound engine self = { self with m_channel := c } := by
  unfold VideoPlayer.playSound
  simp only []
  split_ifs with hp
  · cases engine with
    | none => exact ⟨self.m_channel, rfl⟩
    | some eng =>
      cases hs : eng.m_system with
      | none => exact ⟨self.m_channel, by simp only [hs]⟩
      | some sys => exact ⟨sys.playSound, by simp only [hs]⟩
  · exact ⟨self.m_channel, rfl⟩

theorem initAudio_samples {α : Type} (engine : Option FMODAudioEngine)
    (self self1 : VideoPlayer α) (h : VideoPlayer.initAudio engine self = .ok self1) :
    self1.m_samples = [] := by
  unfold VideoPlayer.initAudio at h
  cases engine with
  | none => simp [deref] at h
  | some eng =>
    cases hs : eng.m_system with
    | none => simp [deref, hs] at h
    | some sys =>
      simp only [deref, hs] at h
      obtain ⟨c, hc⟩ := playSound_frame (some eng)
        ({ self with m_samples := [], m_sound := sys.createStream } : VideoPlayer α)
      rw [hc] at h
      cases c with
      | none => simp at h
      | some ch =>
        simp only [Except.ok.injEq] at h
        rw [← h]

theorem run_append {α : Type} (P : Nat) :
    ∀ (xs ys : List (Event α)) (s : VideoPlayer α),
      run P (xs ++ ys) s = (run P xs s).bind (run P ys) := by
  intro xs
  induction xs with
  | nil => intro ys s; rfl
  | cons x xs ih =>
    intro ys s
    simp only [List.cons_append, run]
    cases step P s x with
    | error e => rfl
    | ok s1 => exact ih ys s1

theorem audioCallback_even {α : Type} (P : Nat) (samples : plm_samples_t α)
    (self self1 : VideoPlayer α) (he : Even self.m_samples.length)
    (h : VideoPlayer.Impl.audioCallback P samples self = .ok self1) :
    Even self1.m_samples.length := by
  rcases pushLoop_cases samples.interleaved (samples.count * 2 % 2 ^ 32) 0 self.m_samples
    with hp | ⟨q, hp, hl⟩
  · unfold VideoPlayer.Impl.audioCallback at h
    rw [hp] at h
    simp at h
  · rw [audioCallback_eq P samples self q hp] at h
    simp only [Except.ok.injEq] at h
    rw [← h]
    simp only [List.length_drop]
    rw [Nat.even_iff] at he ⊢
    omega

theorem PCMRead_even {α : Type} (self : VideoPlayer α) (data : List α) (length : Nat)
    (r : FMOD_RESULT) (self1 : VideoPlayer α) (data1 : List α)
    (he : Even self.m_samples.length)
    (h : VideoPlayer.Impl.PCMRead (some self) data length = .ok (r, some self1, data1)) :
    Even self1.m_samples.length := by
  unfold VideoPlayer.Impl.PCMRead at h
  rcases PCMReadLoop_cases ((length / 4) / 2) 0 data self.m_samples with hp | ⟨b, j, hp, hj⟩
  · simp [hp] at h
  · simp only [hp, Except.ok.injEq, Prod.mk.injEq, Option.some.injEq] at h
    rw [← h.2.1]
    simp only [List.length_drop]
    rw [Nat.even_iff] at he ⊢
    omega

theorem step_even {α : Type} (P : Nat) (self self1 : VideoPlayer α) (ev : Event α)
    (he : Even self.m_samples.length) (h : step P self ev = .ok self1) :
    Even self1.m_samples.length := by
  cases ev with
  | decode samples => exact audioCallback_even P samples self self1 he h
  | pull data length =>
    simp only [step] at h
    split at h
    · simp at h
    · next r s1 d1 heq =>
      simp only [Except.ok.injEq] at h
      subst h
      exact PCMRead_even self data length r _ d1 he heq
    · simp only [Except.ok.injEq] at h
      subst h
      exact he
  | reset engine =>
    simp only [step] at h
    rw [initAudio_samples engine self self1 h]
    exact ⟨0, rfl⟩

theorem run_even {α : Type} (P : Nat) :
    ∀ (evs : List (Event α)) (self self1 : VideoPlayer α),
      Even self.m_samples.length → run P evs self = .ok self1 →
      Even self1.m_samples.length := by
  intro evs
  induction evs with
  | nil =>
    intro self self1 he h
    simp only [run, Except.ok.injEq] at h
    subst h
    exact he
  | cons ev evs ih =>
    intro self self1 he h
    simp only [run] at h
    cases hs : step P self ev with
    | error e => simp [hs] at h
    | ok s1 =>
      simp only [hs] at h
      exact ih s1 self1 (step_even P self s1 ev he hs) h

theorem PCMRead_ok {α : Type} (self : VideoPlayer α) (data : List α) (length : Nat)
    (hbuf : 2 * ((length / 4) / 2) ≤ data.length) :
    VideoPlayer.Impl.PCMRead (some self) data length
      = .ok (.FMOD_OK,
          some { self with
            m_samples := self.m_samples.drop (2 * pairsPopped length self.m_samples.length) },
          self.m_samples.take (2 * pairsPopped length self.m_samples.length)
            ++ data.drop (2 * pairsPopped length self.m_samples.length)) := by
  have h := PCMReadLoop_spec ((length / 4) / 2) 0 [] data self.m_samples rfl hbuf
  simp only [List.nil_append] at h
  simp only [VideoPlayer.Impl.PCMRead, h, pairsPopped]

theorem pairsPopped_le_size (length size : Nat) : 2 * pairsPopped length size ≤ size := by
  unfold pairsPopped
  omega

theorem pairsPopped_le_request (length size : Nat) :
    2 * pairsPopped length size ≤ 2 * ((length / 4) / 2) := by
  unfold pairsPopped
  omega

/-- C1: whatever the buffer held and whatever block is decoded (any count, the
array holding the samples the push loop reads), the decoder audio callback
returns, and afterwards the buffer holds at most
`16 * PLM_AUDIO_SAMPLES_PER_FRAME` samples. -/
theorem C1_trim_bound {α : Type} (PLM_AUDIO_SAMPLES_PER_FRAME : Nat)
    (samples : plm_samples_t α) (self : VideoPlayer α)
    (hin : samples.count * 2 % 2 ^ 32 ≤ samples.interleaved.length) :
    ∃ self1,
      VideoPlayer.Impl.audioCallback PLM_AUDIO_SAMPLES_PER_FRAME samples self = .ok self1 ∧
      self1.m_samples.length ≤ 16 * PLM_AUDIO_SAMPLES_PER_FRAME := by
  have hp := pushLoop_ok samples.interleaved (samples.count * 2 % 2 ^ 32) 0 self.m_samples
    (by omega)
  refine ⟨_, audioCallback_eq PLM_AUDIO_SAMPLES_PER_FRAME samples self _ hp, ?_⟩
  simp only [List.length_drop]
  omega

/-- Witness for C1 with a per-frame constant of 1 (threshold 16): fifteen
buffered samples plus a block of two pairs are trimmed to sixteen. -/
theorem C1_trim_bound_witness :
    (2 * 2 % 2 ^ 32 ≤ [16, 17, 18, 19].length) ∧
    ∃ self1,
      VideoPlayer.Impl.audioCallback 1 ⟨2, [16, 17, 18, 19]⟩
        (playerWith [1, 2, 3, 4, 5, 6, 7, 8, 9, 10, 11, 12, 13, 14, 15] false) = .ok self1 ∧
      self1.m_samples.length ≤ 16 * 1 :=
  ⟨by decide, C1_trim_bound 1 ⟨2, [16, 17, 18, 19]⟩
    (playerWith [1, 2, 3, 4, 5, 6, 7, 8, 9, 10, 11, 12, 13, 14, 15] false) (by decide)⟩

/-- C9: for a block whose array is exactly its `2 * count` interleaved samples
(the 32-bit product not wrapping), the decoder audio callback leaves in the
buffer the last `min (|q| + |s|) T` elements of `q ++ s`, in order, with
`T = 16 * PLM_AUDIO_SAMPLES_PER_FRAME`; nothing is dropped when `|q| + |s| ≤ T`,
and the whole new block survives as the newest part when `|s| ≤ T`. -/
theorem C9_trim_discards_oldest {α : Type} (PLM_AUDIO_SAMPLES_PER_FRAME : Nat)
    (samples : plm_samples_t α) (self : VideoPlayer α)
    (hlen : samples.interleaved.length = 2 * samples.count)
    (hcount : samples.count * 2 < 2 ^ 32) :
    ∃ self1,
      VideoPlayer.Impl.audioCallback PLM_AUDIO_SAMPLES_PER_FRAME samples self = .ok self1 ∧
      self1 = { self with
        m_samples := (self.m_samples ++ samples.interleaved).rtake
          (min (self.m_samples.length + samples.interleaved.length)
            (16 * PLM_AUDIO_SAMPLES_PER_FRAME)) } ∧
      (self.m_samples.length + samples.interleaved.length ≤ 16 * PLM_AUDIO_SAMPLES_PER_FRAME →
        self1.m_samples = self.m_samples ++ samples.interleaved) ∧
      (samples.interleaved.length ≤ 16 * PLM_AUDIO_SAMPLES_PER_FRAME →
        ∃ older, self1.m_samples = older ++ samples.interleaved ∧
          older = self.m_samples.drop (self.m_samples.length + samples.interleaved.length
            - 16 * PLM_AUDIO_SAMPLES_PER_FRAME)) := by
  have hmod : samples.count * 2 % 2 ^ 32 = samples.interleaved.length := by
    rw [Nat.mod_eq_of_lt hcount]; omega
  have hp : pushLoop samples.interleaved (samples.count * 2 % 2 ^ 32) 0 self.m_samples
      = .ok (self.m_samples ++ samples.interleaved) := by
    rw [pushLoop_ok samples.interleaved (samples.count * 2 % 2 ^ 32) 0 self.m_samples
      (by omega), hmod, List.drop_zero, List.take_length]
  refine ⟨_, audioCallback_eq PLM_AUDIO_SAMPLES_PER_FRAME samples self _ hp, ?_, ?_, ?_⟩
  · have : (self.m_samples ++ samples.interleaved).length
        - min (self.m_samples.length + samples.interleaved.length)
            (16 * PLM_AUDIO_SAMPLES_PER_FRAME)
        = (self.m_samples ++ samples.interleaved).length - PLM_AUDIO_SAMPLES_PER_FRAME * 16 := by
      simp only [List.length_append]; omega
    simp only [List.rtake, this]
  · intro hle
    have : (self.m_samples ++ samples.interleaved).length - PLM_AUDIO_SAMPLES_PER_FRAME * 16
        = 0 := by
      simp only [List.length_append]; omega
    simp only [this, List.drop_zero]
  · intro hle
    refine ⟨_, ?_, rfl⟩
    have h1 : (self.m_samples ++ samples.interleaved).length - PLM_AUDIO_SAMPLES_PER_FRAME * 16
        = self.m_samples.length + samples.interleaved.length
            - 16 * PLM_AUDIO_SAMPLES_PER_FRAME := by
      simp only [List.length_append]; omega
    simp only [h1]
    rw [List.drop_append_of_le_length (by omega)]

/-- Witness for C9 with a per-frame constant of 1 (threshold 16): fifteen
buffered samples and a block of two pairs. -/
theorem C9_trim_discards_oldest_witness :
    ([16, 17, 18, 19] : List ℤ).length = 2 * 2 ∧ 2 * 2 < 2 ^ 32 ∧
    VideoPlayer.Impl.audioCallback 1 ⟨2, [16, 17, 18, 19]⟩
        (playerWith [1, 2, 3, 4, 5, 6, 7, 8, 9, 10, 11, 12, 13, 14, 15] false)
      = .ok (playerWith [4, 5, 6, 7, 8, 9, 10, 11, 12, 13, 14, 15, 16, 17, 18, 19] false) :=
  ⟨by decide, by decide,
    (C9_trim_discards_oldest 1 ⟨2, [16, 17, 18, 19]⟩
      (playerWith [1, 2, 3, 4, 5, 6, 7, 8, 9, 10, 11, 12, 13, 14, 15] false)
      (by decide) (by decide)).elim (fun _ h => h.1.trans (congrArg Except.ok (h.2.1.trans rfl)))⟩

/-- C2: with an output block that holds the requested pairs, a pull of `length`
bytes returns `FMOD_OK`; with `k` the popped pairs (`pairsPopped`), the first
`2 * k` output positions are the `2 * k` oldest samples in their order
(`buf[2i] = q[2i]`, `buf[2i+1] = q[2i+1]` for `i < k`), exactly those samples
leave the buffer, and the rest of the buffer stays behind in its order; no
other field of the player changes. -/
theorem C2_PCMRead_fifo {α : Type} (self : VideoPlayer α) (data : List α) (length : Nat)
    (hbuf : 2 * ((length / 4) / 2) ≤ data.length) :
    ∃ self1 data1,
      VideoPlayer.Impl.PCMRead (some self) data length = .ok (.FMOD_OK, some self1, data1) ∧
      data1.take (2 * pairsPopped length self.m_samples.length)
        = self.m_samples.take (2 * pairsPopped length self.m_samples.length) ∧
      (∀ i, i < pairsPopped length self.m_samples.length →
        2 * i + 1 < self.m_samples.length ∧
        data1[2 * i]? = self.m_samples[2 * i]? ∧
        data1[2 * i + 1]? = self.m_samples[2 * i + 1]?) ∧
      self1 = { self with
        m_samples := self.m_samples.drop (2 * pairsPopped length self.m_samples.length) } ∧
      self.m_samples
        = data1.take (2 * pairsPopped length self.m_samples.length) ++ self1.m_samples := by
  have hk := pairsPopped_le_size length self.m_samples.length
  have htake : (self.m_samples.take (2 * pairsPopped length self.m_samples.length)
        ++ data.drop (2 * pairsPopped length self.m_samples.length)).take
          (2 * pairsPopped length self.m_samples.length)
      = self.m_samples.take (2 * pairsPopped length self.m_samples.length) :=
    List.take_left' (by rw [List.length_take]; omega)
  refine ⟨_, _, PCMRead_ok self data length hbuf, htake, ?_, rfl, ?_⟩
  · intro i hi
    have e1 : (self.m_samples.take (2 * pairsPopped length self.m_samples.length)
        ++ data.drop (2 * pairsPopped length self.m_samples.length))[2 * i]?
        = self.m_samples[2 * i]? := by
      rw [← List.getElem?_take_of_lt (show 2 * i < 2 * pairsPopped length self.m_samples.length
        by omega), htake, List.getElem?_take_of_lt (by omega)]
    have e2 : (self.m_samples.take (2 * pairsPopped length self.m_samples.length)
        ++ data.drop (2 * pairsPopped length self.m_samples.length))[2 * i + 1]?
        = self.m_samples[2 * i + 1]? := by
      rw [← List.getElem?_take_of_lt (show 2 * i + 1
        < 2 * pairsPopped length self.m_samples.length by omega), htake,
        List.getElem?_take_of_lt (by omega)]
    exact ⟨by omega, e1, e2⟩
  · rw [htake]
    exact (List.take_append_drop _ _).symm

/-- Witness for C2: a request of 20 bytes (two pairs) on a buffer of five
samples writes the four oldest samples and leaves the fifth. -/
theorem C2_PCMRead_fifo_witness :
    (2 * ((20 / 4) / 2) ≤ ([0, 0, 0, 0, 0] : List ℤ).length) ∧
    ∃ self1 data1,
      VideoPlayer.Impl.PCMRead (some (playerWith [1, 2, 3, 4, 5] false)) [0, 0, 0, 0, 0] 20
        = .ok (.FMOD_OK, some self1, data1) ∧
      data1.take (2 * pairsPopped 20 5) = [1, 2, 3, 4] ∧
      self1 = playerWith [5] false :=
  ⟨by decide,
    (C2_PCMRead_fifo (playerWith [1, 2, 3, 4, 5] false) [0, 0, 0, 0, 0] 20 (by decide)).elim
      (fun s1 h1 => h1.elim (fun d1 h => ⟨s1, d1, h.1, h.2.1.trans rfl, h.2.2.2.1.trans rfl⟩))⟩

/-- C4, as the code has it: with an output block that holds the requested
pairs, a pull returns `FMOD_OK` and writes only the `2 * k` positions it fills
from the buffer; every other position of the output block, in particular the
requested positions `2 * k .. 2 * n - 1`, keeps the value it had on entry, and
with fewer than two buffered samples the block is returned untouched. -/
theorem C4_PCMRead_leaves_unfilled {α : Type} (self : VideoPlayer α) (data : List α)
    (length : Nat) (hbuf : 2 * ((length / 4) / 2) ≤ data.length) :
    ∃ self1 data1,
      VideoPlayer.Impl.PCMRead (some self) data length = .ok (.FMOD_OK, some self1, data1) ∧
      data1.length = data.length ∧
      (∀ j, 2 * pairsPopped length self.m_samples.length ≤ j → data1[j]? = data[j]?) ∧
      (self.m_samples.length < 2 → data1 = data) := by
  have hk := pairsPopped_le_size length self.m_samples.length
  have hn := pairsPopped_le_request length self.m_samples.length
  refine ⟨_, _, PCMRead_ok self data length hbuf, ?_, ?_, ?_⟩
  · simp only [List.length_append, List.length_take, List.length_drop]
    omega
  · intro j hj
    rw [List.getElem?_append_right (by rw [List.length_take]; omega), List.getElem?_drop,
      List.length_take]
    congr 1
    omega
  · intro hlt
    have : pairsPopped length self.m_samples.length = 0 := by
      unfold pairsPopped; omega
    simp [this]

/-- Witness for C4 as amended: a request of 16 bytes on an empty buffer
returns the output block as it was. -/
theorem C4_PCMRead_leaves_unfilled_witness :
    (2 * ((16 / 4) / 2) ≤ ([7, 7, 7, 7] : List ℤ).length) ∧
    ∃ self1 data1,
      VideoPlayer.Impl.PCMRead (some (playerWith [] false)) [7, 7, 7, 7] 16
        = .ok (.FMOD_OK, some self1, data1) ∧
      data1 = [7, 7, 7, 7] :=
  ⟨by decide,
    (C4_PCMRead_leaves_unfilled (playerWith [] false) [7, 7, 7, 7] 16 (by decide)).elim
      (fun s1 h1 => h1.elim (fun d1 h => ⟨s1, d1, h.1, h.2.2.2 (by decide)⟩))⟩

/-- Counterexample to C4 as stated: a pull of 16 bytes (two pairs) on an empty
buffer, into an output block holding the value 7 everywhere, returns with the
block still holding 7 at position 0; no zero is written. -/
theorem C4_silence_counterexample :
    ¬ SilenceOnUnderrun (playerWith [] false) [7, 7, 7, 7] 16 := by
  rintro ⟨self1, data1, h, hz⟩
  have hr : VideoPlayer.Impl.PCMRead (some (playerWith [] false)) [7, 7, 7, 7] 16
      = .ok (.FMOD_OK, some (playerWith [] false), [7, 7, 7, 7]) := rfl
  rw [hr] at h
  simp only [Except.ok.injEq, Prod.mk.injEq, Option.some.injEq, true_and] at h
  have h0 := hz 0 (by decide) (by decide)
  rw [← h.2] at h0
  exact absurd h0 (by decide)

/-- C8: popping or reading the front of an empty queue is an error of the
embedding, and neither the decoder audio callback (its trim loop) nor the pull
callback ever ends in that error, for any buffer, block, output block or
length. -/
theorem C8_pop_never_on_empty {α : Type} (PLM_AUDIO_SAMPLES_PER_FRAME : Nat)
    (samples : plm_samples_t α) (self : VideoPlayer α) (user : Option (VideoPlayer α))
    (data : List α) (length : Nat) :
    pop ([] : List α) = .error .popEmpty ∧
    front ([] : List α) = .error .popEmpty ∧
    trimLoop (PLM_AUDIO_SAMPLES_PER_FRAME * 16) self.m_samples ≠ .error .popEmpty ∧
    VideoPlayer.Impl.audioCallback PLM_AUDIO_SAMPLES_PER_FRAME samples self
      ≠ .error .popEmpty ∧
    VideoPlayer.Impl.PCMRead user data length ≠ .error .popEmpty := by
  refine ⟨rfl, rfl, ?_, ?_, ?_⟩
  · rw [trimLoop_eq_drop]; simp
  · rcases pushLoop_cases samples.interleaved (samples.count * 2 % 2 ^ 32) 0 self.m_samples
      with hp | ⟨q, hp, _⟩
    · unfold VideoPlayer.Impl.audioCallback
      rw [hp]
      simp
    · rw [audioCallback_eq PLM_AUDIO_SAMPLES_PER_FRAME samples self q hp]
      simp
  · cases user with
    | none => simp [VideoPlayer.Impl.PCMRead]
    | some s =>
      unfold VideoPlayer.Impl.PCMRead
      rcases PCMReadLoop_cases ((length / 4) / 2) 0 data s.m_samples with hp | ⟨b, j, hp, _⟩
      · simp [hp]
      · simp [hp]

/-- C3: start from the buffer as `initAudio` leaves it and run any sequence of
decoder audio callbacks, pulls and `initAudio` resets that the code gets
through; the buffer size is even at the end, and even after every operation
on the way (after every prefix of the sequence). -/
theorem C3_size_always_even {α : Type} (PLM_AUDIO_SAMPLES_PER_FRAME : Nat)
    (engine : Option FMODAudioEngine) (self0 self1 self : VideoPlayer α)
    (events : List (Event α))
    (h0 : VideoPlayer.initAudio engine self0 = .ok self1)
    (h : run PLM_AUDIO_SAMPLES_PER_FRAME events self1 = .ok self) :
    Even self.m_samples.length ∧
    ∀ before after, events = before ++ after →
      ∃ mid, run PLM_AUDIO_SAMPLES_PER_FRAME before self1 = .ok mid ∧
        run PLM_AUDIO_SAMPLES_PER_FRAME after mid = .ok self ∧
        Even mid.m_samples.length := by
  have he1 : Even self1.m_samples.length := by
    rw [initAudio_samples engine self0 self1 h0]; exact ⟨0, rfl⟩
  refine ⟨run_even PLM_AUDIO_SAMPLES_PER_FRAME events self1 self he1 h, ?_⟩
  intro before after hsplit
  rw [hsplit, run_append] at h
  cases hb : run PLM_AUDIO_SAMPLES_PER_FRAME before self1 with
  | error e => rw [hb] at h; simp [Except.bind] at h
  | ok mid =>
    rw [hb] at h
    exact ⟨mid, rfl, h, run_even PLM_AUDIO_SAMPLES_PER_FRAME before self1 mid he1 hb⟩

/-- Witness for C3 with a per-frame constant of 1 (threshold 16): a reset of a
player holding three samples, then a block of two pairs, a pull of one pair,
a reset, a block of nine pairs (trimmed to sixteen samples) and a pull of two
pairs leave twelve samples. -/
theorem C3_size_always_even_witness :
    VideoPlayer.initAudio deviceEngine (playerWith [1, 2, 3] false)
      = .ok (playerWith [] false) ∧
    run 1 [.decode ⟨2, [1, 2, 3, 4]⟩, .pull [0, 0] 8, .reset deviceEngine,
        .decode ⟨9, [1, 2, 3, 4, 5, 6, 7, 8, 9, 10, 11, 12, 13, 14, 15, 16, 17, 18]⟩,
        .pull [0, 0, 0, 0] 16] (playerWith [] false)
      = .ok (playerWith [7, 8, 9, 10, 11, 12, 13, 14, 15, 16, 17, 18] false) ∧
    Even (playerWith [7, 8, 9, 10, 11, 12, 13, 14, 15, 16, 17, 18] false).m_samples.length :=
  ⟨rfl, rfl,
    (C3_size_always_even 1 deviceEngine (playerWith [1, 2, 3] false) (playerWith [] false)
      (playerWith [7, 8, 9, 10, 11, 12, 13, 14, 15, 16, 17, 18] false)
      [.decode ⟨2, [1, 2, 3, 4]⟩, .pull [0, 0] 8, .reset deviceEngine,
        .decode ⟨9, [1, 2, 3, 4, 5, 6, 7, 8, 9, 10, 11, 12, 13, 14, 15, 16, 17, 18]⟩,
        .pull [0, 0, 0, 0] 16] rfl rfl).1⟩

/-- Teardown on any player that has a channel and a sound makes both device
calls with the value `m_stopped` had on entry, and sets the flag afterwards. -/
theorem destructor_trace {α : Type} (self self1 : VideoPlayer α)
    (trace : List (TeardownStep × Bool)) (h : self.destructor = .ok (self1, trace)) :
    trace = [(.channelStop, self.m_stopped), (.soundRelease, self.m_stopped)] ∧
      self1.m_stopped = true := by
  unfold VideoPlayer.destructor at h
  cases hc : self.m_channel with
  | none => simp [hc, deref] at h
  | some ch =>
    cases hs : self.m_sound with
    | none => simp [hc, hs, deref] at h
    | some snd =>
      simp only [hc, hs, deref, Except.ok.injEq, Prod.mk.injEq] at h
      obtain ⟨h1, h2⟩ := h
      subst h1
      subst h2
      exact ⟨rfl, rfl⟩

/-- C5, the code at a running player: teardown stops the channel and releases
the sound while `m_stopped` is still false, and only then sets it; the
ordering the claim asks for does not hold. -/
theorem C5_teardown_sets_flag_last :
    (playerWith [] false).destructor
      = .ok ({ playerWith [] false with
                m_channel := some ⟨false, false, .fin 1, true, true⟩,
                m_sound := some ⟨true⟩,
                m_stopped := true },
             [(.channelStop, false), (.soundRelease, false)]) ∧
    ¬ FlagSetBeforeDeviceCalls (playerWith [] false) := by
  refine ⟨rfl, ?_⟩
  intro hflag
  have := hflag _ [(.channelStop, false), (.soundRelease, false)] rfl
    (TeardownStep.channelStop, false) (List.mem_cons_self _ _)
  exact absurd this (by decide)

/-- C7, the code with the audio device absent: `initAudio` dereferences the
engine, and then the system handle, before `playSound` gets to check them, and
dereferences the channel that `playSound` did not create; each case ends in a
null dereference, while `playSound` alone leaves the player as it is. -/
theorem C7_initAudio_derefs_absent_device {α : Type} (self : VideoPlayer α)
    (sound : Option Sound) :
    VideoPlayer.initAudio none self = .error .nullDeref ∧
    VideoPlayer.initAudio (some ⟨none⟩) self = .error .nullDeref ∧
    (self.m_channel = none →
      VideoPlayer.initAudio (some ⟨some ⟨sound, none⟩⟩) self = .error .nullDeref) ∧
    VideoPlayer.playSound none self = self ∧
    VideoPlayer.playSound (some ⟨none⟩) self = self := by
  refine ⟨rfl, rfl, ?_, ?_, ?_⟩
  · intro hc
    simp [VideoPlayer.initAudio, VideoPlayer.playSound, deref, hc]
  · simp only [VideoPlayer.playSound]
    split_ifs <;> rfl
  · simp only [VideoPlayer.playSound]
    split_ifs <;> rfl

/-- C10: with `m_stopped` set, the channel callback returns `FMOD_OK` and the
player exactly as it was, for every callback type; the callback changes the
player only for type END with `m_stopped` clear, and then its result is that
of `initAudio`, which, when it returns, has emptied `m_samples`. -/
theorem C10_stopped_callback_noop {α : Type} (engine : Option FMODAudioEngine)
    (self : VideoPlayer α) (callbackType : FMOD_CHANNELCONTROL_CALLBACK_TYPE) :
    (self.m_stopped = true →
      VideoPlayer.Impl.audioCallbackFMOD engine self callbackType = .ok (.FMOD_OK, self)) ∧
    (VideoPlayer.Impl.audioCallbackFMOD engine self callbackType ≠ .ok (.FMOD_OK, self) →
      callbackType = .FMOD_CHANNELCONTROL_CALLBACK_END ∧ self.m_stopped = false) ∧
    (callbackType = .FMOD_CHANNELCONTROL_CALLBACK_END → self.m_stopped = false →
      VideoPlayer.Impl.audioCallbackFMOD engine self callbackType
        = (VideoPlayer.initAudio engine self).map (fun self1 => (FMOD_RESULT.FMOD_OK, self1)) ∧
      ∀ r self1, VideoPlayer.Impl.audioCallbackFMOD engine self callbackType = .ok (r, self1) →
        r = .FMOD_OK ∧ self1.m_samples = []) := by
  refine ⟨?_, ?_, ?_⟩
  · intro hs
    unfold VideoPlayer.Impl.audioCallbackFMOD
    split_ifs <;> rfl
  · intro hne
    unfold VideoPlayer.Impl.audioCallbackFMOD at hne
    split_ifs at hne with h1 h2
    · exact absurd rfl hne
    · exact absurd rfl hne
    · exact ⟨not_not.mp h1, by simpa using h2⟩
  · intro hty hs
    have hcb : VideoPlayer.Impl.audioCallbackFMOD engine self callbackType
        = (VideoPlayer.initAudio engine self).map
            (fun self1 => (FMOD_RESULT.FMOD_OK, self1)) := by
      unfold VideoPlayer.Impl.audioCallbackFMOD
      rw [if_neg (not_not.mpr hty), hs]
      simp only [Bool.false_eq_true, if_false]
      cases VideoPlayer.initAudio engine self <;> rfl
    refine ⟨hcb, ?_⟩
    intro r self1 hr
    rw [hcb] at hr
    cases hi : VideoPlayer.initAudio engine self with
    | error e => rw [hi] at hr; simp [Except.map] at hr
    | ok s =>
      rw [hi] at hr
      simp only [Except.map, Except.ok.injEq, Prod.mk.injEq] at hr
      refine ⟨by cases r; rfl, ?_⟩
      rw [← hr.2]
      exact initAudio_samples engine self s hi

/-- Witness for C10: a stopped looping player receiving END is returned
unchanged, while the same player not stopped has its buffer reset. -/
theorem C10_stopped_callback_noop_witness :
    VideoPlayer.Impl.audioCallbackFMOD deviceEngine (playerWith [1, 2] true)
        .FMOD_CHANNELCONTROL_CALLBACK_END = .ok (.FMOD_OK, playerWith [1, 2] true) ∧
    VideoPlayer.Impl.audioCallbackFMOD deviceEngine (playerWith [1, 2] false)
        .FMOD_CHANNELCONTROL_CALLBACK_END = .ok (.FMOD_OK, playerWith [] false) :=
  ⟨(C10_stopped_callback_noop deviceEngine (playerWith [1, 2] true)
      .FMOD_CHANNELCONTROL_CALLBACK_END).1 rfl,
    ((C10_stopped_callback_noop deviceEngine (playerWith [1, 2] false)
      .FMOD_CHANNELCONTROL_CALLBACK_END).2.2 rfl rfl).1.trans rfl⟩

/-! ## Lemmas about single-precision rounding -/

/-- The model on three concrete calls: `setHeight(100)` on a native size 16 by
9, `setWidth(100)` on a native size 3 by 1, and `fillSize` of a native size 5
by 3 into 16666666 by 10000000, where both aspect ratios round to the same
value and the `setHeight` path is taken. -/
theorem resize_examples :
    ({ playerWith [] false with m_dimensions := ⟨.fin 16, .fin 9⟩ }.setHeight
        (.fin 100)).m_obContentSize = ⟨.fin (11650845 / 65536), .fin 100⟩ ∧
    ({ playerWith [] false with m_dimensions := ⟨.fin 3, .fin 1⟩ }.setWidth
        (.fin 100)).m_obContentSize = ⟨.fin 100, .fin (8738133 / 262144)⟩ ∧
    ({ playerWith [] false with m_dimensions := ⟨.fin 5, .fin 3⟩ }.fillSize
        ⟨.fin 16666666, .fin 10000000⟩).m_obContentSize
      = ⟨.fin 16666666, .fin 10000000⟩ := by
  decide!

/-- Outside the range of the theorem below the arithmetic leaves the finite
values: the aspect ratio of a size `2 ^ 100` by `2 ^ -100` overflows. -/
theorem aspect_overflow :
    CCSize.aspect ⟨.fin (2 ^ 100), .fin (1 / 2 ^ 100)⟩ = .inf false := by
  decide!

end videoplayer
